import Mathlib

set_option maxRecDepth 8000

/-!
Verification of the MYRASPOS kernel core against its specification.

Each subsystem named by the claims is given a shallow embedding: the C
functions of the repository are translated into executable Lean
definitions (structs become structures, pointer-linked lists become
lists or association heaps, machine integers become `Nat`/`Int` with
explicit wrapping where the source wraps), and the claims are settled
as theorems about those definitions.

Covered source files: `src/kernel/pty.c`/`pty.h`, `src/kernel/kmalloc.c`,
`src/kernel/sched.c`, `src/kernel/wm.c`/`wm.h`, `src/kernel/input.c`.
-/

/- ======================================================================
   PTY — src/kernel/pty.h, src/kernel/pty.c

   `struct pty` holds two ring buffers: `char in_buf[1024]` with indices
   `in_h`, `in_t` advanced modulo 512, and `char out_buf[8192]` with
   indices `out_h`, `out_t` advanced modulo 2048.  A write drops the
   byte when the ring is full; a read of an empty ring returns 0.
   ====================================================================== -/

/-- Model of `struct pty` (src/kernel/pty.h lines 6..12).  The backing buffers are
modelled at their declared sizes (1024 and 8192 bytes); the head/tail
indices are the C `int` fields, which the operations keep in `[0, 512)`
resp. `[0, 2048)`. -/
structure Pty where
  in_buf : List Char
  in_h : Nat
  in_t : Nat
  out_buf : List Char
  out_h : Nat
  out_t : Nat
deriving Repr, DecidableEq

/-- Model of `pty_write_in` (src/kernel/pty.c lines 20..30): advance the head
modulo 512 and store the byte, unless the ring is full, in which case
the byte is silently dropped and the state is unchanged. -/
def pty_write_in (p : Pty) (c : Char) : Pty :=
  let next := (p.in_h + 1) % 512
  if next ≠ p.in_t then
    { p with in_buf := p.in_buf.set p.in_h c, in_h := next }
  else
    p

/-- Model of `pty_read_in` (src/kernel/pty.c lines 32..44): return 0 on an empty
ring, otherwise pop the byte at the tail and advance the tail modulo
512. -/
def pty_read_in (p : Pty) : Char × Pty :=
  if p.in_h = p.in_t then
    (Char.ofNat 0, p)
  else
    (p.in_buf.getD p.in_t (Char.ofNat 0), { p with in_t := (p.in_t + 1) % 512 })

/-- Model of `pty_write_out` (src/kernel/pty.c lines 46..55): same as
`pty_write_in` but on the output ring, modulo 2048. -/
def pty_write_out (p : Pty) (c : Char) : Pty :=
  let next := (p.out_h + 1) % 2048
  if next ≠ p.out_t then
    { p with out_buf := p.out_buf.set p.out_h c, out_h := next }
  else
    p

/-- Number of bytes pending in the input ring (distance from tail to
head modulo 512). -/
def inPend (p : Pty) : Nat := (p.in_h + 512 - p.in_t) % 512

/-- Number of bytes pending in the output ring (distance from tail to
head modulo 2048). -/
def outPend (p : Pty) : Nat := (p.out_h + 2048 - p.out_t) % 2048

/-- The sequence of pending bytes of the input ring, oldest first. -/
def inContents (p : Pty) : List Char :=
  (List.range (inPend p)).map (fun i => p.in_buf.getD ((p.in_t + i) % 512) (Char.ofNat 0))

/-- Well-formedness of a `Pty` as maintained by the code: buffers at
their declared lengths and indices inside the ring ranges. -/
abbrev PtyWF (p : Pty) : Prop :=
  p.in_buf.length = 1024 ∧ p.in_h < 512 ∧ p.in_t < 512 ∧
  p.out_buf.length = 8192 ∧ p.out_h < 2048 ∧ p.out_t < 2048

/-- Writing each byte of `xs` in order with `pty_write_in`. -/
def writeListIn (p : Pty) (xs : List Char) : Pty :=
  xs.foldl pty_write_in p

/-- Performing `n` calls to `pty_read_in`, collecting the returned
bytes in order. -/
def readListIn : Pty → Nat → List Char × Pty
  | p, 0 => ([], p)
  | p, n + 1 =>
    let r := pty_read_in p
    let rest := readListIn r.2 n
    (r.1 :: rest.1, rest.2)

theorem write_in_full (p : Pty) (c : Char)
    (hh : p.in_h < 512) (ht : p.in_t < 512) (hf : inPend p = 511) :
    pty_write_in p c = p := by
  have hnext : (p.in_h + 1) % 512 = p.in_t := by
    unfold inPend at hf
    omega
  simp [pty_write_in, hnext]

theorem write_in_not_full (p : Pty) (c : Char)
    (hl : p.in_buf.length = 1024) (hh : p.in_h < 512) (ht : p.in_t < 512)
    (hf : inPend p < 511) :
    (pty_write_in p c).in_buf.length = 1024 ∧
    (pty_write_in p c).in_h < 512 ∧
    (pty_write_in p c).in_t = p.in_t ∧
    inPend (pty_write_in p c) = inPend p + 1 ∧
    inContents (pty_write_in p c) = inContents p ++ [c] := by
  have hf' : (p.in_h + 512 - p.in_t) % 512 < 511 := hf
  have hnext : (p.in_h + 1) % 512 ≠ p.in_t := by omega
  have hstep : pty_write_in p c =
      { p with in_buf := p.in_buf.set p.in_h c, in_h := (p.in_h + 1) % 512 } := by
    simp [pty_write_in, hnext]
  rw [hstep]
  have hpend : inPend { p with in_buf := p.in_buf.set p.in_h c, in_h := (p.in_h + 1) % 512 }
      = inPend p + 1 := by
    show ((p.in_h + 1) % 512 + 512 - p.in_t) % 512 = (p.in_h + 512 - p.in_t) % 512 + 1
    omega
  refine ⟨by simpa using hl, by show (p.in_h + 1) % 512 < 512; omega, rfl, hpend, ?_⟩
  simp only [inContents, hpend, List.range_succ, List.map_append, List.map_cons, List.map_nil]
  congr 1
  · -- existing entries are untouched: their ring indices differ from the head
    apply List.map_congr_left
    intro i hi
    have hi' : i < (p.in_h + 512 - p.in_t) % 512 := List.mem_range.mp hi
    have hne : p.in_h ≠ (p.in_t + i) % 512 := by omega
    show (p.in_buf.set p.in_h c).getD ((p.in_t + i) % 512) (Char.ofNat 0)
        = p.in_buf.getD ((p.in_t + i) % 512) (Char.ofNat 0)
    rw [List.getD_eq_getElem?_getD, List.getD_eq_getElem?_getD, List.getElem?_set_ne hne]
  · -- the freshly written byte appears at the old head position
    have hidx : (p.in_t + (p.in_h + 512 - p.in_t) % 512) % 512 = p.in_h := by omega
    show (p.in_buf.set p.in_h c).getD ((p.in_t + (p.in_h + 512 - p.in_t) % 512) % 512)
        (Char.ofNat 0) :: [] = c :: []
    rw [hidx, List.getD_eq_getElem?_getD, List.getElem?_set_self (by omega)]
    rfl

theorem read_in_cons (p : Pty) (c : Char) (cs : List Char)
    (hh : p.in_h < 512) (ht : p.in_t < 512)
    (hc : inContents p = c :: cs) :
    (pty_read_in p).1 = c ∧
    (pty_read_in p).2.in_buf = p.in_buf ∧
    (pty_read_in p).2.in_h = p.in_h ∧
    (pty_read_in p).2.in_t < 512 ∧
    inContents (pty_read_in p).2 = cs := by
  have hpos : 0 < inPend p := by
    by_contra h
    have h0 : inPend p = 0 := by omega
    rw [inContents, h0] at hc
    simp at hc
  have hne : p.in_h ≠ p.in_t := by
    unfold inPend at hpos
    omega
  have hstep : pty_read_in p =
      (p.in_buf.getD p.in_t (Char.ofNat 0), { p with in_t := (p.in_t + 1) % 512 }) := by
    simp [pty_read_in, hne]
  obtain ⟨n, hn⟩ : ∃ n, inPend p = n + 1 := ⟨inPend p - 1, by omega⟩
  have hn' : (p.in_h + 512 - p.in_t) % 512 = n + 1 := hn
  have hpend' : inPend { p with in_t := (p.in_t + 1) % 512 } = n := by
    show (p.in_h + 512 - (p.in_t + 1) % 512) % 512 = n
    omega
  have hkey : inContents p =
      p.in_buf.getD p.in_t (Char.ofNat 0) ::
        inContents { p with in_t := (p.in_t + 1) % 512 } := by
    rw [inContents, hn, List.range_succ_eq_map, List.map_cons, List.map_map]
    congr 1
    · rw [Nat.add_zero, Nat.mod_eq_of_lt ht]
    · rw [inContents, hpend']
      apply List.map_congr_left
      intro i hi
      show p.in_buf.getD ((p.in_t + Nat.succ i) % 512) (Char.ofNat 0)
          = p.in_buf.getD (((p.in_t + 1) % 512 + i) % 512) (Char.ofNat 0)
      congr 1
      omega
  have hcc := hkey.symm.trans hc
  have h1 : p.in_buf.getD p.in_t (Char.ofNat 0) = c := (List.cons.inj hcc).1
  have h2 : inContents { p with in_t := (p.in_t + 1) % 512 } = cs := (List.cons.inj hcc).2
  rw [hstep]
  exact ⟨h1, rfl, rfl, Nat.mod_lt _ (by omega), h2⟩

theorem writeListIn_contents (xs : List Char) : ∀ p : Pty,
    p.in_buf.length = 1024 → p.in_h < 512 → p.in_t < 512 →
    inPend p + xs.length ≤ 511 →
    (writeListIn p xs).in_buf.length = 1024 ∧
    (writeListIn p xs).in_h < 512 ∧
    (writeListIn p xs).in_t = p.in_t ∧
    inContents (writeListIn p xs) = inContents p ++ xs := by
  induction xs with
  | nil =>
    intro p hl hh ht _
    exact ⟨hl, hh, rfl, by simp [writeListIn]⟩
  | cons x xs ih =>
    intro p hl hh ht hlen
    have hf : inPend p < 511 := by
      simp only [List.length_cons] at hlen
      omega
    obtain ⟨h1, h2, h3, h4, h5⟩ := write_in_not_full p x hl hh ht hf
    have hlen' : inPend (pty_write_in p x) + xs.length ≤ 511 := by
      rw [h4]
      simp only [List.length_cons] at hlen
      omega
    have hrec := ih (pty_write_in p x) h1 h2 (h3 ▸ ht) hlen'
    have hfold : writeListIn p (x :: xs) = writeListIn (pty_write_in p x) xs := rfl
    refine ⟨hfold ▸ hrec.1, hfold ▸ hrec.2.1, ?_, ?_⟩
    · rw [hfold, hrec.2.2.1, h3]
    · rw [hfold, hrec.2.2.2, h5]
      simp

theorem readListIn_contents (ys : List Char) : ∀ p : Pty,
    p.in_h < 512 → p.in_t < 512 → inContents p = ys →
    (readListIn p ys.length).1 = ys := by
  induction ys with
  | nil =>
    intro p _ _ _
    simp [readListIn]
  | cons y ys ih =>
    intro p hh ht hc
    obtain ⟨h1, _, h3, h4, h5⟩ := read_in_cons p y ys hh ht hc
    have hh' : (pty_read_in p).2.in_h < 512 := h3 ▸ hh
    have := ih (pty_read_in p).2 hh' h4 h5
    simp only [List.length_cons, readListIn]
    rw [h1, this]

/-- C7: writing any byte sequence of length `N ≤ 511` into an empty
input ring with `pty_write_in` and then performing `N` calls to
`pty_read_in` returns the same byte sequence in the same order.
(The input ring has 512 slots of which one is always unusable, so the
"capacity − 1" of the claim is 511.) -/
theorem pty_in_roundtrip (p : Pty) (xs : List Char)
    (hw : PtyWF p) (hempty : p.in_h = p.in_t) (hn : xs.length ≤ 511) :
    (readListIn (writeListIn p xs) xs.length).1 = xs := by
  obtain ⟨hl, hh, ht, -, -, -⟩ := hw
  have hpend0 : inPend p = 0 := by
    unfold inPend
    omega
  have hempty' : inContents p = [] := by
    rw [inContents, hpend0]
    simp
  have hwr := writeListIn_contents xs p hl hh ht (by omega)
  have hcontents : inContents (writeListIn p xs) = xs := by
    rw [hwr.2.2.2, hempty']
    simp
  exact readListIn_contents xs (writeListIn p xs) hwr.2.1 (hwr.2.2.1 ▸ ht) hcontents

/-- The all-zero freshly allocated PTY (`pty_alloc` memsets the struct
to zero). -/
def ptyZero : Pty :=
  { in_buf := List.replicate 1024 (Char.ofNat 0)
    in_h := 0
    in_t := 0
    out_buf := List.replicate 8192 (Char.ofNat 0)
    out_h := 0
    out_t := 0 }

theorem ptyZero_wf : PtyWF ptyZero := by
  refine ⟨?_, ?_, ?_, ?_, ?_, ?_⟩
  · show (List.replicate 1024 (Char.ofNat 0)).length = 1024
    rw [List.length_replicate]
  · show (0 : Nat) < 512
    omega
  · show (0 : Nat) < 512
    omega
  · show (List.replicate 8192 (Char.ofNat 0)).length = 8192
    rw [List.length_replicate]
  · show (0 : Nat) < 2048
    omega
  · show (0 : Nat) < 2048
    omega

/-- Witness for C7 at the concrete input "abc" on a fresh PTY. -/
theorem pty_in_roundtrip_witness :
    PtyWF ptyZero ∧ ptyZero.in_h = ptyZero.in_t ∧
      (['a', 'b', 'c'] : List Char).length ≤ 511 ∧
      (readListIn (writeListIn ptyZero ['a', 'b', 'c']) 3).1 = ['a', 'b', 'c'] :=
  ⟨ptyZero_wf, rfl, by decide,
    pty_in_roundtrip ptyZero ['a', 'b', 'c'] ptyZero_wf rfl (by decide)⟩

theorem write_out_full (p : Pty) (c : Char)
    (hh : p.out_h < 2048) (ht : p.out_t < 2048) (hf : outPend p = 2047) :
    pty_write_out p c = p := by
  have hf' : (p.out_h + 2048 - p.out_t) % 2048 = 2047 := hf
  have hnext : (p.out_h + 1) % 2048 = p.out_t := by omega
  simp [pty_write_out, hnext]

theorem write_out_not_full_pend (p : Pty) (c : Char)
    (hh : p.out_h < 2048) (ht : p.out_t < 2048) (hf : outPend p < 2047) :
    outPend (pty_write_out p c) = outPend p + 1 := by
  have hf' : (p.out_h + 2048 - p.out_t) % 2048 < 2047 := hf
  have hnext : (p.out_h + 1) % 2048 ≠ p.out_t := by omega
  have hstep : pty_write_out p c =
      { p with out_buf := p.out_buf.set p.out_h c, out_h := (p.out_h + 1) % 2048 } := by
    simp [pty_write_out, hnext]
  rw [hstep]
  show ((p.out_h + 1) % 2048 + 2048 - p.out_t) % 2048 = (p.out_h + 2048 - p.out_t) % 2048 + 1
  omega

theorem write_in_not_full_pend (p : Pty) (c : Char)
    (hh : p.in_h < 512) (ht : p.in_t < 512) (hf : inPend p < 511) :
    inPend (pty_write_in p c) = inPend p + 1 := by
  have hf' : (p.in_h + 512 - p.in_t) % 512 < 511 := hf
  have hnext : (p.in_h + 1) % 512 ≠ p.in_t := by omega
  have hstep : pty_write_in p c =
      { p with in_buf := p.in_buf.set p.in_h c, in_h := (p.in_h + 1) % 512 } := by
    simp [pty_write_in, hnext]
  rw [hstep]
  show ((p.in_h + 1) % 512 + 512 - p.in_t) % 512 = (p.in_h + 512 - p.in_t) % 512 + 1
  omega

/-- C10: when a PTY ring is full the write is silently discarded with
the state unchanged: `pty_write_in` drops the byte once 511 bytes are
pending and `pty_write_out` once 2047 bytes are pending, so the
effective capacities are 512 and 2048 slots (one slot always unusable)
even though the backing buffers are 1024 resp. 8192 bytes long; below
the bound a write stores the byte (the pending count grows by one). -/
theorem pty_full_write_dropped (p : Pty) (c : Char) (hw : PtyWF p) :
    p.in_buf.length = 1024 ∧ p.out_buf.length = 8192 ∧
    (inPend p = 511 → pty_write_in p c = p) ∧
    (inPend p < 511 → inPend (pty_write_in p c) = inPend p + 1) ∧
    (outPend p = 2047 → pty_write_out p c = p) ∧
    (outPend p < 2047 → outPend (pty_write_out p c) = outPend p + 1) := by
  obtain ⟨hl, hh, ht, hol, hoh, hot⟩ := hw
  exact ⟨hl, hol,
    fun hf => write_in_full p c hh ht hf,
    fun hf => write_in_not_full_pend p c hh ht hf,
    fun hf => write_out_full p c hoh hot hf,
    fun hf => write_out_not_full_pend p c hoh hot hf⟩

/-- A PTY whose input ring holds 511 pending bytes and whose output
ring holds 2047 pending bytes: both rings are full. -/
def ptyFull : Pty :=
  { in_buf := List.replicate 1024 (Char.ofNat 0)
    in_h := 511
    in_t := 0
    out_buf := List.replicate 8192 (Char.ofNat 0)
    out_h := 2047
    out_t := 0 }

/-- Witness for C10: on a PTY with both rings full, writes are dropped
and the state is unchanged. -/
theorem pty_full_write_dropped_witness :
    PtyWF ptyFull ∧ inPend ptyFull = 511 ∧ outPend ptyFull = 2047 ∧
      pty_write_in ptyFull 'x' = ptyFull ∧ pty_write_out ptyFull 'x' = ptyFull := by
  have hwf : PtyWF ptyFull := by
    refine ⟨?_, ?_, ?_, ?_, ?_, ?_⟩
    · show (List.replicate 1024 (Char.ofNat 0)).length = 1024
      rw [List.length_replicate]
    · show (511 : Nat) < 512
      omega
    · show (0 : Nat) < 512
      omega
    · show (List.replicate 8192 (Char.ofNat 0)).length = 8192
      rw [List.length_replicate]
    · show (2047 : Nat) < 2048
      omega
    · show (0 : Nat) < 2048
      omega
  have hin : inPend ptyFull = 511 := by
    show (511 + 512 - 0) % 512 = 511
    omega
  have hout : outPend ptyFull = 2047 := by
    show (2047 + 2048 - 0) % 2048 = 2047
    omega
  have h := pty_full_write_dropped ptyFull 'x' hwf
  exact ⟨hwf, hin, hout, h.2.2.1 hin, h.2.2.2.2.1 hout⟩

/- ======================================================================
   Page allocator — src/kernel/palloc.c

   A first-fit contiguous bitmap allocator over a fixed pool of 4 KiB
   pages.  The C bitmap packs one bit per page into bytes; the model
   keeps one `Bool` per page (`true` = used), which computes the same
   function.
   ====================================================================== -/

/-- The page-allocator state: `total_pages`, `pool_start_addr` and the
per-page used bitmap of src/kernel/palloc.c. -/
structure Palloc where
  total_pages : Nat
  pool_start : Nat
  bitmap : List Bool
deriving Repr, DecidableEq

/-- The scan loop of `palloc_alloc_contig` (src/kernel/palloc.c lines
53..69): walk the bitmap accumulating a run of consecutive free pages;
return the start index of the first run of length `count`. -/
def pallocScan (count : Nat) : List Bool → Nat → Nat → Nat → Option Nat
  | [], _, _, _ => none
  | b :: rest, i, consecutive, start_idx =>
    if b = false then
      let s := if consecutive = 0 then i else start_idx
      let c := consecutive + 1
      if c = count then some s
      else pallocScan count rest (i + 1) c s
    else
      pallocScan count rest (i + 1) 0 start_idx

/-- Mark the pages `[start, start+count)` of the bitmap as used/free. -/
def pallocMark (bm : List Bool) (start count : Nat) (v : Bool) : List Bool :=
  bm.mapIdx (fun i b => if start ≤ i ∧ i < start + count then v else b)

/-- Model of `palloc_alloc_contig` (src/kernel/palloc.c lines 38..73): first-fit
allocation of `count` contiguous pages, returning the start address;
the pages found are marked used (the C code also memsets them to
zero). -/
def palloc_alloc_contig (st : Palloc) (count : Nat) : Option Nat × Palloc :=
  if st.total_pages = 0 then (none, st)
  else if count = 0 ∨ st.total_pages < count then (none, st)
  else
    match pallocScan count (st.bitmap.take st.total_pages) 0 0 0 with
    | none => (none, st)
    | some s =>
      (some (st.pool_start + s * 4096), { st with bitmap := pallocMark st.bitmap s count true })

/-- Model of `palloc_free` (src/kernel/palloc.c lines 79..96): validate the
alignment and bounds of the freed range, then clear its bits. -/
def palloc_free (st : Palloc) (ptr : Nat) (count : Nat) : Palloc :=
  if ptr = 0 ∨ count = 0 then st
  else
    let offset := ptr - st.pool_start
    if offset % 4096 ≠ 0 then st
    else
      let idx := offset / 4096
      if st.total_pages < idx + count then st
      else { st with bitmap := pallocMark st.bitmap idx count false }

/- ======================================================================
   Block allocator — src/kernel/kmalloc.c

   `struct km_header` is 32 bytes (the comment in the source says so and
   the fields add up: 8 size + 4+4 is_large + 8 next + 8 padding).  The
   heap is modelled as an association list from header addresses to
   header contents; the free list is the chain of `next` pointers
   starting at `free_list`.
   ====================================================================== -/

/-- Model of `struct km_header` (src/kernel/kmalloc.c lines 13..18). `is_large`
is 0 for small blocks and the page count for large ones. -/
structure KmHeader where
  size : Nat
  is_large : Nat
  next : Option Nat
deriving Repr, DecidableEq

/-- Memory holding block headers, as an association list from header
address to header contents. -/
abbrev KmHeap := List (Nat × KmHeader)

def heapGet (hp : KmHeap) (a : Nat) : Option KmHeader :=
  (hp.find? (fun e => e.1 = a)).map Prod.snd

def heapSet (hp : KmHeap) (a : Nat) (h : KmHeader) : KmHeap :=
  (a, h) :: hp.filter (fun e => e.1 ≠ a)

/-- Drop every header inside `[lo, hi)` (the bytes were overwritten,
e.g. by the memset in `palloc_alloc_contig`). -/
def heapClear (hp : KmHeap) (lo hi : Nat) : KmHeap :=
  hp.filter (fun e => e.1 < lo ∨ hi ≤ e.1)

/-- The block-allocator state: the header memory, the head of the free
list, the underlying page allocator and the kernel log (the strings
passed to `uart_puts` by the modelled paths). -/
structure KmState where
  heap : KmHeap
  free_list : Option Nat
  pal : Palloc
  log : List String
deriving Repr, DecidableEq

/-- Result of the bounded free-list scan of `kmalloc`
(src/kernel/kmalloc.c lines 65..90): either a fitting block was found
(returning the predecessor — `none` stands for the `free_list` root
pointer — the block address and its header), or the walk ended at a
null pointer with the remaining iteration budget, or the `limit`
counter was exhausted, or the list pointed at an address holding no
header (unreachable in the states this development evaluates). -/
inductive KmScanResult where
  | found (prev : Option Nat) (a : Nat) (hdr : KmHeader) : KmScanResult
  | nullEnd (limitLeft : Nat) : KmScanResult
  | limitEnd : KmScanResult
  | badDeref (a : Nat) : KmScanResult
deriving Repr, DecidableEq

/-- The `while (cur && limit-- > 0)` scan of `kmalloc`: at most `limit`
dereferences, following `next` until a block with `size ≥ size` wanted
is found. -/
def kmScan (hp : KmHeap) (size : Nat) : Option Nat → Option Nat → Nat → KmScanResult
  | _, none, limit => .nullEnd limit
  | _, some _, 0 => .limitEnd
  | prev, some a, limit + 1 =>
    match heapGet hp a with
    | none => .badDeref a
    | some hdr =>
      if size ≤ hdr.size then .found prev a hdr
      else kmScan hp size (some a) hdr.next limit

/-- Store `v` through the `prev` pointer of the scan: `none` is the
`&free_list` root, `some pa` the `&pa->next` field. -/
def writePrev (st : KmState) (prev : Option Nat) (v : Option Nat) : KmState :=
  match prev with
  | none => { st with free_list := v }
  | some pa =>
    match heapGet st.heap pa with
    | none => st
    | some ph => { st with heap := heapSet st.heap pa { ph with next := v } }

/-- Allocation action once the scan found block `a` (src/kernel/kmalloc.c
lines 70..86): split it when the remainder is at least a header plus 16
bytes (the remainder replaces the block in the list in place), else
unlink the whole block; either way clear `is_large` and return the
payload address `a + 32`. -/
def kmTake (st : KmState) (size : Nat) (prev : Option Nat) (a : Nat) (hdr : KmHeader) :
    Option Nat × KmState :=
  if size + 32 + 16 ≤ hdr.size then
    let nb := a + 32 + size
    let hp := heapSet st.heap nb ⟨hdr.size - size - 32, 0, hdr.next⟩
    let hp := heapSet hp a ⟨size, 0, hdr.next⟩
    (some (a + 32), writePrev { st with heap := hp } prev (some nb))
  else
    let hp := heapSet st.heap a { hdr with is_large := 0 }
    (some (a + 32), writePrev { st with heap := hp } prev hdr.next)

/-- The address-ordered insertion walk of `kfree` (src/kernel/kmalloc.c
lines 136..142): advance while `cur < h`, returning the final
`(prev, cur)` pair; `none` models the C code looping forever on a
cyclic list (this walk has no iteration bound in the source). -/
def kfreeFind (hp : KmHeap) (h : Nat) : Nat → Option Nat → Option Nat →
    Option (Option Nat × Option Nat)
  | 0, _, _ => none
  | _ + 1, prev, none => some (prev, none)
  | fuel + 1, prev, some a =>
    if a < h then
      match heapGet hp a with
      | none => none
      | some hdr => kfreeFind hp h fuel (some a) hdr.next
    else some (prev, some a)

/-- Coalescing with the successor block (src/kernel/kmalloc.c lines
153..157): if the inserted block is contiguous with its list successor,
absorb it. -/
def coalesceNext (st : KmState) (h : Nat) : KmState :=
  match heapGet st.heap h with
  | none => st
  | some hdr =>
    match hdr.next with
    | none => st
    | some na =>
      if h + 32 + hdr.size = na then
        match heapGet st.heap na with
        | none => st
        | some nh =>
          { st with heap := heapSet st.heap h ⟨hdr.size + 32 + nh.size, hdr.is_large, nh.next⟩ }
      else st

/-- The predecessor walk of the second coalescing step
(src/kernel/kmalloc.c lines 165..167): find the node whose `next` is
`h`. -/
def coalescePrevFind (hp : KmHeap) (h : Nat) : Nat → Option Nat → Option Nat
  | 0, _ => none
  | _ + 1, none => none
  | fuel + 1, some a =>
    match heapGet hp a with
    | none => none
    | some hdr => if hdr.next = some h then some a else coalescePrevFind hp h fuel hdr.next

/-- Coalescing with the predecessor block (src/kernel/kmalloc.c lines
159..172). -/
def coalescePrev (st : KmState) (h : Nat) : KmState :=
  match st.free_list with
  | none => st
  | some p0 =>
    if p0 = h then st
    else
      match coalescePrevFind st.heap h (st.heap.length + 1) (some p0) with
      | none => st
      | some pa =>
        match heapGet st.heap pa, heapGet st.heap h with
        | some ph, some hh =>
          if pa + 32 + ph.size = h then
            { st with heap := heapSet st.heap pa ⟨ph.size + 32 + hh.size, ph.is_large, hh.next⟩ }
          else st
        | _, _ => st

/-- Model of `kfree` (src/kernel/kmalloc.c lines 126..173): large blocks go back
to the page allocator; small blocks are inserted into the
address-ordered free list (a block already present at the insertion
point is a detected double free and is not re-inserted) and coalesced
with the adjacent successor and predecessor. -/
def kfree (st : KmState) (ptr : Nat) : KmState :=
  if ptr = 0 then st
  else
    let h := ptr - 32
    match heapGet st.heap h with
    | none => st
    | some hdr =>
      if 0 < hdr.is_large then
        { st with pal := palloc_free st.pal h hdr.is_large }
      else
        match kfreeFind st.heap h (st.heap.length + 1) none st.free_list with
        | none => st
        | some (prev, cur) =>
          if cur = some h then
            { st with log := "[kmalloc] WARNING: Double-free detected" :: st.log }
          else
            let st1 := { st with heap := heapSet st.heap h { hdr with next := cur } }
            let st2 := writePrev st1 prev (some h)
            coalescePrev (coalesceNext st2 h) h

/-- Model of `km_expand_small` (src/kernel/kmalloc.c lines 26..40): take one
fresh page, wrap it in a header covering the page minus the header, and
insert it through the `kfree` path. -/
def km_expand_small (st : KmState) : KmState :=
  match palloc_alloc_contig st.pal 1 with
  | (none, pal') =>
    { st with pal := pal'
              log := "[kmalloc] expand_small failed: palloc_alloc returned NULL" :: st.log }
  | (some page, pal') =>
    let hp := heapClear st.heap page (page + 4096)
    let st1 := { st with pal := pal', heap := heapSet hp page ⟨4096 - 32, 0, none⟩ }
    kfree st1 (page + 32)

/-- The retry scan after expansion (src/kernel/kmalloc.c lines
101..120); this second walk has no iteration bound in the source, so
the model gives it fuel `heap.length + 1`, enough for any acyclic
list. -/
def kmScanNoLimit (hp : KmHeap) (size : Nat) : Nat → Option Nat → Option Nat → KmScanResult
  | 0, _, _ => .limitEnd
  | _ + 1, _, none => .nullEnd 1
  | fuel + 1, prev, some a =>
    match heapGet hp a with
    | none => .badDeref a
    | some hdr =>
      if size ≤ hdr.size then .found prev a hdr
      else kmScanNoLimit hp size fuel (some a) hdr.next

/-- Model of `kmalloc` (src/kernel/kmalloc.c lines 42..124): zero requests fail;
sizes are rounded up to 16; requests over a page (including the header)
take whole pages from the page allocator; small requests scan the free
list under the 10000-iteration cycle bound (`limit ≤ 0` after the scan
prints the cycle diagnostic and returns NULL), expanding by one page
and rescanning when no block fits. -/
def kmalloc (st : KmState) (size0 : Nat) : Option Nat × KmState :=
  if size0 = 0 then (none, st)
  else
    let size := (size0 + 15) / 16 * 16
    if 4096 < size + 32 then
      let pages := (size + 32 + 4095) / 4096
      match palloc_alloc_contig st.pal pages with
      | (none, pal') => (none, { st with pal := pal' })
      | (some ptr, pal') =>
        let hp := heapClear st.heap ptr (ptr + pages * 4096)
        (some (ptr + 32), { st with pal := pal', heap := heapSet hp ptr ⟨size, pages, none⟩ })
    else
      match kmScan st.heap size none st.free_list 10000 with
      | .found prev a hdr => kmTake st size prev a hdr
      | .limitEnd =>
        (none, { st with log := "[kmalloc] FATAL: Free list cycle detected!" :: st.log })
      | .nullEnd limitLeft =>
        if limitLeft = 0 then
          (none, { st with log := "[kmalloc] FATAL: Free list cycle detected!" :: st.log })
        else
          let st' := km_expand_small st
          match kmScanNoLimit st'.heap size (st'.heap.length + 1) none st'.free_list with
          | .found prev a hdr => kmTake st' size prev a hdr
          | _ => (none, { st' with log := "[kmalloc] failed to allocate" :: st'.log })
      | .badDeref _ => (none, st)

/-- The free list of a state, as `(address, size)` pairs in list
order. -/
def kmFreeBlocks (st : KmState) : Nat → Option Nat → List (Nat × Nat)
  | 0, _ => []
  | _ + 1, none => []
  | fuel + 1, some a =>
    match heapGet st.heap a with
    | none => []
    | some h => (a, h.size) :: kmFreeBlocks st fuel h.next

def kmFreeList (st : KmState) : List (Nat × Nat) :=
  kmFreeBlocks st (st.heap.length + 1) st.free_list

/-- A fresh allocator over a 4-page pool starting at address 4096:
empty heap, empty free list, all pages free. -/
def kmInit : KmState :=
  { heap := []
    free_list := none
    pal := { total_pages := 4, pool_start := 4096, bitmap := [false, false, false, false] }
    log := [] }

/-- The run of concrete scenario 4 of the spec:
`p = kmalloc(64); q = kmalloc(64); r = kmalloc(64); kfree(q); kfree(p);
kfree(r)` from a fresh allocator. -/
def c4Final : KmState :=
  let r1 := kmalloc kmInit 64
  let r2 := kmalloc r1.2 64
  let r3 := kmalloc r2.2 64
  let s4 := kfree r3.2 (r2.1.getD 0)
  let s5 := kfree s4 (r1.1.getD 0)
  kfree s5 (r3.1.getD 0)

/-- A free list consisting of a single self-looping node: the header at
address 96 points at itself, and no block ever fits a 16-byte
request. -/
def cycHeap : KmHeap := [(96, ⟨0, 0, some 96⟩)]

/-- An allocator state whose free list is cyclic. -/
def cycState : KmState :=
  { heap := cycHeap
    free_list := some 96
    pal := { total_pages := 0, pool_start := 0, bitmap := [] }
    log := [] }

theorem kmScan_selfLoop : ∀ (limit : Nat) (prev : Option Nat),
    kmScan cycHeap 16 prev (some 96) limit = .limitEnd := by
  intro limit
  induction limit with
  | zero => intro prev; rfl
  | succ n ih =>
    intro prev
    have hget : heapGet cycHeap 96 = some ⟨0, 0, some 96⟩ := rfl
    rw [kmScan, hget]
    simp only [Nat.le_zero, OfNat.ofNat_ne_zero, if_false]
    exact ih (some 96)

/-- C3 (amended): when the bounded free-list scan of `kmalloc` exhausts
its 10000-iteration cycle bound, `kmalloc` prints the cycle diagnostic
and returns NULL to the caller — it does not halt. -/
theorem kmalloc_cycle_returns_null (st : KmState) (size0 : Nat) (h0 : size0 ≠ 0)
    (hsmall : (size0 + 15) / 16 * 16 + 32 ≤ 4096)
    (hscan : kmScan st.heap ((size0 + 15) / 16 * 16) none st.free_list 10000 = .limitEnd) :
    kmalloc st size0 =
      (none, { st with log := "[kmalloc] FATAL: Free list cycle detected!" :: st.log }) := by
  unfold kmalloc
  rw [if_neg h0, if_neg (by omega), hscan]

/-- C3 counterexample: at the concrete cyclic state `cycState`, the C
code path for an exhausted scan ends in `return NULL` — the caller does
receive a result (a null pointer, after the diagnostic is printed),
contradicting the claim that the kernel halts instead of returning. -/
theorem kmalloc_cycle_counterexample :
    kmalloc cycState 16 =
      (none, { cycState with log := ["[kmalloc] FATAL: Free list cycle detected!"] }) := by
  unfold kmalloc
  rw [if_neg (by omega)]
  have hscan : kmScan cycState.heap ((16 + 15) / 16 * 16) none cycState.free_list 10000
      = .limitEnd := kmScan_selfLoop 10000 none
  rw [if_neg (by omega), hscan]
  rfl

/-- Witness for the amended C3 theorem at the concrete cyclic state. -/
theorem kmalloc_cycle_returns_null_witness :
    (16 : Nat) ≠ 0 ∧ (16 + 15) / 16 * 16 + 32 ≤ 4096 ∧
      kmScan cycState.heap ((16 + 15) / 16 * 16) none cycState.free_list 10000 = .limitEnd ∧
      kmalloc cycState 16 =
        (none, { cycState with log := "[kmalloc] FATAL: Free list cycle detected!" :: cycState.log }) :=
  ⟨by omega, by omega, kmScan_selfLoop 10000 none,
    kmalloc_cycle_returns_null cycState 16 (by omega) (by omega) (kmScan_selfLoop 10000 none)⟩

/-- C4 counterexample: the spec scenario
`p = kmalloc(64); q = kmalloc(64); r = kmalloc(64); kfree(q); kfree(p);
kfree(r)` from a fresh allocator ends with a single free block, but its
size is 4064 bytes (the whole backing page minus one header), not the
192 + 64 = 256 bytes (three allocations plus two headers) the claim
states: the freed run also coalesces with the free tail of the page
that the first allocation split off. -/
theorem kfree_coalesce_counterexample :
    (kmFreeList c4Final).map Prod.snd = [4064] ∧ 64 + 64 + 64 + 32 + 32 ≠ 4064 := by
  constructor
  · decide
  · omega

/-- C4 (amended): the scenario leaves the free list holding exactly one
free block — at the start of the pool's first page — whose size is the
page size minus one header (the three allocations plus two headers plus
the coalesced free tail of the page). -/
theorem kfree_coalesce_scenario :
    kmFreeList c4Final = [(4096, 4096 - 32)] := by
  decide

/- ======================================================================
   Scheduler — src/kernel/sched.c

   The circular singly-linked task ring is modelled as the list of tasks
   in ring order starting at `task_head`; `task_cur` is modelled by its
   task id (`curId`), with id 0 standing for the static `boot_task`,
   which is never linked into the ring.  Function pointers are modelled
   as `Option Nat` (`none` = NULL).  `scheduler_tick` is the C `int`
   tick counter; `wake_tick` fields are `uint32_t` values below 2^32.
   ====================================================================== -/

namespace Sched

/-- Model of `enum block_reason` (src/kernel/sched.c lines 19..23). -/
inductive BlockReason where
  | none
  | timer
  | event
deriving Repr, DecidableEq

/-- The fields of `struct task` (src/kernel/sched.c lines 25..46) that
the claims inspect.  `fn`/`saved_fn` hold function pointers
(`Option Nat`), `wake_tick` the `uint32_t` wake time. -/
structure Task where
  id : Int
  fn : Option Nat
  saved_fn : Option Nat
  wake_tick : Nat
  block_type : BlockReason
  zombie : Bool
  parent_id : Int
deriving Repr, DecidableEq

/-- The scheduler globals: the ring (`task_head` order), the current
task id (`task_cur`; 0 = boot context, never on the ring), the `int`
tick counter and the event-waiter list (`task_id`, `event_id`). -/
structure SchedState where
  tasks : List Task
  curId : Int
  tick : Int
  waitList : List (Int × Nat)
deriving Repr, DecidableEq

/-- Reinterpret a `uint32_t` as the C `(int)` cast does
(two's-complement). -/
def toInt32 (n : Nat) : Int :=
  if n % 4294967296 < 2147483648 then ((n % 4294967296 : Nat) : Int)
  else ((n % 4294967296 : Nat) : Int) - 4294967296

/-- Marking a task killed (`t->zombie = 1; t->fn = NULL;`). -/
def markKilled (t : Task) : Task :=
  { t with zombie := true, fn := none }

/-- Model of `kill_children_of` (src/kernel/sched.c lines 519..536): mark every
not-yet-zombie child of `pid` zombie with a nulled function pointer and
recurse into its children.  The C recursion is bounded by the number of
not-yet-zombie tasks; the model carries explicit fuel (one list length
per level is always enough). -/
def killChildrenOf : Nat → Int → List Task → List Task
  | 0, _, ts => ts
  | fuel + 1, pid, ts =>
    let victims :=
      (ts.filter (fun t => t.zombie = false && t.parent_id == pid && t.id != pid)).map Task.id
    let ts' :=
      ts.map (fun t =>
        if t.zombie = false && t.parent_id == pid && t.id != pid then markKilled t else t)
    victims.foldl (fun acc cid => killChildrenOf fuel cid acc) ts'

/-- Remove the first ring node with the given id (the unlink step of
`reap_zombies`). -/
def removeFirstById (i : Int) : List Task → List Task
  | [] => []
  | t :: ts => if t.id == i then ts else t :: removeFirstById i ts

/-- Model of `reap_zombies` (src/kernel/sched.c lines 210..287): repeatedly find
a zombie that is not the currently running task (`t == task_cur` is
skipped — its stack is in use), mark its children for death, unlink it,
free it, and drop its waiter nodes, restarting the scan each time.
Returns the final state and the ids whose stack and task struct were
freed.  Fuel `tasks.length + 1` reaches the fixpoint: every round
removes one node. -/
def reap_zombies : Nat → SchedState → SchedState × List Int
  | 0, st => (st, [])
  | fuel + 1, st =>
    match st.tasks.find? (fun t => t.zombie && t.id != st.curId) with
    | Option.none => (st, [])
    | some t =>
      let ts1 := killChildrenOf st.tasks.length t.id st.tasks
      let ts2 := removeFirstById t.id ts1
      let wl := st.waitList.filter (fun w => w.1 != t.id)
      let r := reap_zombies fuel { st with tasks := ts2, waitList := wl }
      (r.1, t.id :: r.2)

/-- The per-task wake check of `scheduler_tick_advance`
(src/kernel/sched.c line 718): a task with `fn == NULL`,
`saved_fn != NULL`, `block_type == BLOCK_TIMER` and
`(int)wake_tick <= scheduler_tick` gets its function pointer
restored. -/
def wakeStep (tick : Int) (t : Task) : Task :=
  if t.fn = Option.none ∧ t.saved_fn ≠ Option.none ∧ t.block_type = BlockReason.timer ∧
      toInt32 t.wake_tick ≤ tick then
    { t with fn := t.saved_fn, saved_fn := Option.none, block_type := BlockReason.none }
  else t

/-- Model of `scheduler_tick_advance` (src/kernel/sched.c lines 703..725): a
zero delta returns immediately; otherwise the tick advances by
`(int)delta_ms` and every ring task is run through the wake check.
(The C `int` addition is modelled without 32-bit wrap, as the spec
fixes boot-short runs.) -/
def scheduler_tick_advance (delta : Nat) (st : SchedState) : SchedState :=
  if delta = 0 then st
  else
    let tick' := st.tick + toInt32 delta
    { st with tick := tick', tasks := st.tasks.map (wakeStep tick') }

/-- Model of `task_block_current_until` (src/kernel/sched.c lines 637..645):
stash the current task's function pointer, null it, record the wake
tick and the TIMER block reason.  (The `schedule()` call it ends with
is modelled separately.) -/
def task_block_current_until (wake : Nat) (st : SchedState) : SchedState :=
  { st with tasks := st.tasks.map (fun t =>
      if t.id == st.curId then
        { t with saved_fn := t.fn, fn := Option.none, wake_tick := wake,
                 block_type := BlockReason.timer }
      else t) }

/-- Model of `task_kill` on a task that exists and is not yet a zombie
(src/kernel/sched.c lines 538..575): mark it zombie, null its function
pointer and cascade to its children.  No memory is freed here. -/
def task_kill (id : Int) (st : SchedState) : SchedState :=
  if id ≤ 0 then st
  else
    match st.tasks.find? (fun t => t.id == id) with
    | Option.none => st
    | some t =>
      if t.zombie then st
      else
        let ts := st.tasks.map (fun u => if u.id == id then markKilled u else u)
        { st with tasks := killChildrenOf ts.length id ts }

/-- The index of the ring node that is `task_cur` (pointer identity,
looked up by id; `none` when `task_cur` is the boot context or has been
unlinked). -/
def idxOfId (cid : Int) : List Task → Option Nat
  | [] => Option.none
  | t :: ts => if t.id == cid then some 0 else (idxOfId cid ts).map (· + 1)

def curIdx (st : SchedState) : Option Nat :=
  idxOfId st.curId st.tasks

/-- The indices of runnable ring nodes (`fn != NULL`), in ring order
from `task_head` — the single counting pass of `schedule()`
(src/kernel/sched.c lines 338..345). -/
def schedRunnables (st : SchedState) : List Nat :=
  (List.range st.tasks.length).filter
    (fun i => ((st.tasks.get? i).map (fun t => t.fn.isSome)).getD false)

/-- The skip-blocked walk of `schedule()` (src/kernel/sched.c lines
357..361): starting at `prev->next`, advance past `fn == NULL` nodes,
at most 1000 steps, stopping if the walk wraps to its start. -/
def skipBlocked (ts : List Task) (n start : Nat) : Nat → Nat → Nat
  | 0, i => i
  | attemptsLeft + 1, i =>
    if ((ts.get? i).map (fun t => t.fn.isSome)).getD false then i
    else
      let j := (i + 1) % n
      if j = start then j
      else skipBlocked ts n start attemptsLeft j

/-- The task-selection logic of `schedule()` (src/kernel/sched.c lines
310..367), after reaping and the timer/IRQ poll: with an empty ring
return; count the runnable tasks; zero runnable — return without a
switch; exactly one — switch to it iff it is not `task_cur`; otherwise
walk from the cursor's successor (from `task_head` when `task_cur` is
the boot context) skipping blocked nodes, and refuse to switch to a
blocked node or to `task_cur` itself.  The result is the ring index of
the task switched into (`none` = no context switch). -/
def schedStart (st : SchedState) : Nat :=
  match curIdx st with
  | Option.none => 0
  | some ci => (ci + 1) % st.tasks.length

/-- The tail of the selection (src/kernel/sched.c lines 357..367): walk
from the cursor's successor, then refuse to switch to a blocked node or
to `task_cur` itself. -/
def schedWalkPick (st : SchedState) (start : Nat) : Option Nat :=
  let j := skipBlocked st.tasks st.tasks.length start 1000 start
  if ((st.tasks.get? j).map (fun t => t.fn.isSome)).getD false = false then Option.none
  else if curIdx st = some j then Option.none
  else some j

def scheduleSelect (st : SchedState) : Option Nat :=
  if st.tasks.isEmpty then Option.none
  else
    match schedRunnables st with
    | [] => Option.none
    | [ui] => if curIdx st = some ui then Option.none else some ui
    | _ :: _ :: _ => schedWalkPick st (schedStart st)

/-- The task selected by `schedule()`, if any. -/
def scheduleSelectTask (st : SchedState) : Option Task :=
  (scheduleSelect st).bind (fun i => st.tasks.get? i)

/-- One full `schedule()` call (src/kernel/sched.c lines 289..502):
reap zombies first, then advance the timer by the pending delta
(`timer_poll_and_advance`), then select the task to switch into.
Returns the selected task, the state after reaping and tick advance,
and the ids freed by the reap. -/
def schedule_step (delta : Nat) (st : SchedState) : Option Task × SchedState × List Int :=
  let r := reap_zombies (st.tasks.length + 1) st
  let st2 := scheduler_tick_advance delta r.1
  (scheduleSelectTask st2, st2, r.2)

theorem killChildrenOf_ids : ∀ (fuel : Nat) (pid : Int) (ts : List Task),
    (killChildrenOf fuel pid ts).map Task.id = ts.map Task.id := by
  intro fuel
  induction fuel with
  | zero => intro pid ts; rfl
  | succ f ih =>
    intro pid ts
    rw [killChildrenOf]
    have hmap : (ts.map (fun t =>
        if t.zombie = false && t.parent_id == pid && t.id != pid then markKilled t else t)).map
          Task.id = ts.map Task.id := by
      rw [List.map_map]
      apply List.map_congr_left
      intro t _
      show (if t.zombie = false && t.parent_id == pid && t.id != pid then markKilled t
        else t).id = t.id
      split <;> rfl
    have hfold : ∀ (l : List Int) (acc : List Task),
        ((l.foldl (fun acc cid => killChildrenOf f cid acc) acc).map Task.id) =
          acc.map Task.id := by
      intro l
      induction l with
      | nil => intro acc; rfl
      | cons x xs ihl =>
        intro acc
        rw [List.foldl_cons, ihl, ih x acc]
    rw [hfold, hmap]

theorem removeFirstById_sublist (i : Int) : ∀ ts : List Task,
    (removeFirstById i ts).Sublist ts := by
  intro ts
  induction ts with
  | nil => exact List.Sublist.refl []
  | cons t ts ih =>
    rw [removeFirstById]
    split
    · exact List.sublist_cons_self t ts
    · exact List.Sublist.cons₂ t ih

theorem removeFirstById_length (i : Int) : ∀ ts : List Task,
    i ∈ ts.map Task.id → (removeFirstById i ts).length + 1 = ts.length := by
  intro ts
  induction ts with
  | nil => intro h; simp at h
  | cons t ts ih =>
    intro h
    rw [removeFirstById]
    split
    · simp
    · rename_i hne
      have : i ∈ ts.map Task.id := by
        rcases List.mem_map.mp h with ⟨u, hu, hid⟩
        rcases List.mem_cons.mp hu with rfl | hu
        · exact absurd (by simp [hid]) hne
        · exact List.mem_map.mpr ⟨u, hu, hid⟩
      simp only [List.length_cons, ← ih this]

theorem reap_zombies_props : ∀ (fuel : Nat) (st : SchedState),
    st.tasks.length < fuel → ((st.tasks.map Task.id).Nodup) →
    (∀ t ∈ (reap_zombies fuel st).1.tasks, t.zombie = true → t.id = st.curId) ∧
    (reap_zombies fuel st).1.curId = st.curId ∧
    (reap_zombies fuel st).1.tick = st.tick ∧
    ((reap_zombies fuel st).1.tasks.map Task.id).Nodup ∧
    (∀ i ∈ (reap_zombies fuel st).2, i ≠ st.curId) := by
  intro fuel
  induction fuel with
  | zero => intro st h; omega
  | succ f ih =>
    intro st hlen hnd
    rw [reap_zombies]
    cases hfind : st.tasks.find? (fun t => t.zombie && t.id != st.curId) with
    | none =>
      refine ⟨?_, rfl, rfl, hnd, by intro i h; simp at h⟩
      intro t ht hz
      have := List.find?_eq_none.mp hfind t ht
      simp only [hz, Bool.true_and, bne_iff_ne, ne_eq, Bool.not_eq_true,
        decide_eq_false_iff_not, not_not] at this
      exact this
    | some t =>
      have hmem : t ∈ st.tasks := List.mem_of_find?_eq_some hfind
      have hp := List.find?_some hfind
      have hne : t.id ≠ st.curId := by
        simp only [Bool.and_eq_true, bne_iff_ne, ne_eq] at hp
        exact hp.2
      have hids1 : (killChildrenOf st.tasks.length t.id st.tasks).map Task.id
          = st.tasks.map Task.id := killChildrenOf_ids _ _ _
      have hmem_id : t.id ∈ (killChildrenOf st.tasks.length t.id st.tasks).map Task.id := by
        rw [hids1]
        exact List.mem_map.mpr ⟨t, hmem, rfl⟩
      have hlen2 : (removeFirstById t.id
          (killChildrenOf st.tasks.length t.id st.tasks)).length + 1
          = (killChildrenOf st.tasks.length t.id st.tasks).length :=
        removeFirstById_length _ _ hmem_id
      have hlen1 : (killChildrenOf st.tasks.length t.id st.tasks).length
          = st.tasks.length := by
        have := congrArg List.length hids1
        simpa using this
      have hnd2 : ((removeFirstById t.id
          (killChildrenOf st.tasks.length t.id st.tasks)).map Task.id).Nodup := by
        apply List.Nodup.sublist
        · exact List.Sublist.map Task.id (removeFirstById_sublist _ _)
        · rw [hids1]; exact hnd
      have hrec := ih
        { st with
            tasks := removeFirstById t.id (killChildrenOf st.tasks.length t.id st.tasks)
            waitList := st.waitList.filter (fun w => w.1 != t.id) }
        (by simp only; omega) hnd2
      refine ⟨hrec.1, hrec.2.1, hrec.2.2.1, hrec.2.2.2.1, ?_⟩
      intro i hi
      rcases List.mem_cons.mp hi with rfl | hi
      · exact hne
      · exact hrec.2.2.2.2 i hi

theorem wakeStep_id (tk : Int) (t : Task) : (wakeStep tk t).id = t.id := by
  unfold wakeStep
  split <;> rfl

theorem wakeStep_zombie (tk : Int) (t : Task) : (wakeStep tk t).zombie = t.zombie := by
  unfold wakeStep
  split <;> rfl

theorem tick_advance_curId (d : Nat) (st : SchedState) :
    (scheduler_tick_advance d st).curId = st.curId := by
  unfold scheduler_tick_advance
  split <;> rfl

theorem tick_advance_ids (d : Nat) (st : SchedState) :
    (scheduler_tick_advance d st).tasks.map Task.id = st.tasks.map Task.id := by
  unfold scheduler_tick_advance
  split
  · rfl
  · show (st.tasks.map _).map Task.id = st.tasks.map Task.id
    rw [List.map_map]
    apply List.map_congr_left
    intro t _
    exact wakeStep_id _ t

theorem tick_advance_zombie (d : Nat) (st : SchedState) :
    ∀ t ∈ (scheduler_tick_advance d st).tasks, t.zombie = true →
      ∃ u ∈ st.tasks, u.id = t.id ∧ u.zombie = true := by
  intro t ht hz
  unfold scheduler_tick_advance at ht
  split at ht
  · exact ⟨t, ht, rfl, hz⟩
  · simp only [List.mem_map] at ht
    obtain ⟨u, hu, rfl⟩ := ht
    exact ⟨u, hu, (wakeStep_id _ u).symm, (wakeStep_zombie _ u) ▸ hz⟩

theorem idxOfId_some_get (cid : Int) : ∀ (ts : List Task) (k : Nat),
    idxOfId cid ts = some k →
    k < ts.length ∧ ∃ u, ts.get? k = some u ∧ u.id = cid := by
  intro ts
  induction ts with
  | nil => intro k h; simp [idxOfId] at h
  | cons t ts ih =>
    intro k h
    rw [idxOfId] at h
    by_cases hc : (t.id == cid) = true
    · rw [if_pos hc] at h
      have hk : k = 0 := (Option.some.inj h).symm
      subst hk
      exact ⟨by simp, t, rfl, by simpa using hc⟩
    · rw [if_neg hc] at h
      cases hrec : idxOfId cid ts with
      | none => rw [hrec] at h; simp at h
      | some k0 =>
        rw [hrec] at h
        simp at h
        have hk : k = k0 + 1 := by omega
        subst hk
        obtain ⟨hlt, u, hu, hid⟩ := ih k0 hrec
        exact ⟨by simp only [List.length_cons]; omega, u, by simpa using hu, hid⟩

theorem idxOfId_none (cid : Int) : ∀ ts : List Task,
    idxOfId cid ts = Option.none → ∀ u ∈ ts, u.id ≠ cid := by
  intro ts
  induction ts with
  | nil => intro _ u hu; simp at hu
  | cons t ts ih =>
    intro h u hu
    rw [idxOfId] at h
    by_cases hc : (t.id == cid) = true
    · rw [if_pos hc] at h; simp at h
    · rw [if_neg hc] at h
      rcases List.mem_cons.mp hu with rfl | hu
      · simpa using hc
      · cases hrec : idxOfId cid ts with
        | none => exact ih hrec u hu
        | some k0 => rw [hrec] at h; simp at h

theorem skipBlocked_lt (ts : List Task) (n start : Nat) (hn : n ≠ 0) :
    ∀ (a i : Nat), i < n → skipBlocked ts n start a i < n := by
  intro a
  induction a with
  | zero => intro i hi; exact hi
  | succ a ih =>
    intro i hi
    rw [skipBlocked]
    split
    · exact hi
    · have hj : (i + 1) % n < n := Nat.mod_lt _ (by omega)
      show (if (i + 1) % n = start then (i + 1) % n
        else skipBlocked ts n start a ((i + 1) % n)) < n
      split
      · exact hj
      · exact ih _ hj

theorem schedStart_lt (st : SchedState) (hne : st.tasks.length ≠ 0) :
    schedStart st < st.tasks.length := by
  unfold schedStart
  cases h : curIdx st with
  | none =>
    show 0 < st.tasks.length
    omega
  | some ci =>
    show (ci + 1) % st.tasks.length < st.tasks.length
    exact Nat.mod_lt _ (by omega)

theorem schedWalkPick_some (st : SchedState) (start j : Nat)
    (hst : start < st.tasks.length) (h : schedWalkPick st start = some j) :
    j < st.tasks.length ∧ curIdx st ≠ some j := by
  unfold schedWalkPick at h
  set k := skipBlocked st.tasks st.tasks.length start 1000 start with hk
  by_cases h1 : ((st.tasks.get? k).map (fun t => t.fn.isSome)).getD false = false
  · rw [if_pos h1] at h; simp at h
  · rw [if_neg h1] at h
    by_cases h2 : curIdx st = some k
    · rw [if_pos h2] at h; simp at h
    · rw [if_neg h2] at h
      have hjk : k = j := Option.some.inj h
      subst hjk
      exact ⟨hk ▸ skipBlocked_lt st.tasks st.tasks.length start (by omega) 1000 start hst, h2⟩

theorem scheduleSelect_some (st : SchedState) (j : Nat)
    (hsel : scheduleSelect st = some j) :
    j < st.tasks.length ∧ curIdx st ≠ some j := by
  unfold scheduleSelect at hsel
  by_cases hemp : st.tasks.isEmpty
  · rw [if_pos hemp] at hsel; simp at hsel
  · rw [if_neg hemp] at hsel
    have hn : st.tasks.length ≠ 0 := by
      intro h0
      rw [List.isEmpty_iff] at hemp
      exact hemp (List.length_eq_zero.mp h0)
    cases hr : schedRunnables st with
    | nil => rw [hr] at hsel; simp at hsel
    | cons u0 rest =>
      cases rest with
      | nil =>
        rw [hr] at hsel
        by_cases hc : curIdx st = some u0
        · rw [show (match [u0] with
              | [] => (Option.none : Option Nat)
              | [ui] => if curIdx st = some ui then Option.none else some ui
              | _ :: _ :: _ => schedWalkPick st (schedStart st))
              = if curIdx st = some u0 then Option.none else some u0 from rfl,
            if_pos hc] at hsel
          simp at hsel
        · rw [show (match [u0] with
              | [] => (Option.none : Option Nat)
              | [ui] => if curIdx st = some ui then Option.none else some ui
              | _ :: _ :: _ => schedWalkPick st (schedStart st))
              = if curIdx st = some u0 then Option.none else some u0 from rfl,
            if_neg hc] at hsel
          have hj : u0 = j := Option.some.inj hsel
          subst hj
          refine ⟨?_, hc⟩
          have hmem : u0 ∈ schedRunnables st := by
            rw [hr]; exact List.mem_cons_self u0 []
          unfold schedRunnables at hmem
          exact List.mem_range.mp (List.mem_filter.mp hmem).1
      | cons u1 rest2 =>
        rw [hr] at hsel
        exact schedWalkPick_some st (schedStart st) j (schedStart_lt st hn) hsel

/-- C1: `schedule()` never switches into a task whose zombie flag is
set, and never frees the stack or task struct of the task it is
currently running on: the reap pass frees only zombies other than
`task_cur`, and after it only `task_cur` can still be a zombie, so the
selection (which skips `fn == NULL` nodes and refuses `next == prev`)
cannot return a zombie.  This holds for zombies made by `task_exit` and
`task_kill`, including tasks that were blocked on a timer or an event
when killed: such a task keeps its `saved_fn`, and the tick advance
inside `schedule()` (or a `task_wake_event` before it) may restore its
function pointer, but that can only happen to the zombie that is
`task_cur` itself — every other zombie was already reaped — and
`task_cur` is never selected. -/
theorem schedule_never_selects_zombie (st : SchedState) (delta : Nat)
    (hnd : (st.tasks.map Task.id).Nodup) :
    (∀ t, (schedule_step delta st).1 = some t → t.zombie = false) ∧
    (∀ i ∈ (schedule_step delta st).2.2, i ≠ st.curId) := by
  obtain ⟨hz1, hcur1, htick1, hnd1, hfreed⟩ :=
    reap_zombies_props (st.tasks.length + 1) st (by omega) hnd
  constructor
  · intro t hsel0
    set st1 := (reap_zombies (st.tasks.length + 1) st).1 with hst1
    set st2 := scheduler_tick_advance delta st1 with hst2
    have hsel1 : scheduleSelectTask st2 = some t := hsel0
    have hsel : (scheduleSelect st2).bind (fun i => st2.tasks.get? i) = some t := hsel1
    cases hs : scheduleSelect st2 with
    | none => rw [hs] at hsel; simp at hsel
    | some j =>
      rw [hs] at hsel
      have hsel2 : st2.tasks.get? j = some t := hsel
      obtain ⟨hjlt, hjne⟩ := scheduleSelect_some st2 j hs
      by_contra hzt
      have hzt' : t.zombie = true := by
        cases hzb : t.zombie
        · exact absurd hzb hzt
        · rfl
      have hmem2 : t ∈ st2.tasks := List.get?_mem hsel2
      obtain ⟨u, hu1, huid, huz⟩ := tick_advance_zombie delta st1 t hmem2 hzt'
      have htid : t.id = st.curId := by
        rw [← huid, hz1 u hu1 huz]
      have hcur2 : st2.curId = st.curId := by
        rw [hst2, tick_advance_curId, hcur1]
      -- `curIdx st2` must point at position j, contradicting the selection guard
      cases hidx : curIdx st2 with
      | none =>
        have := idxOfId_none st2.curId st2.tasks hidx t hmem2
        rw [hcur2] at this
        exact this htid
      | some k =>
        obtain ⟨hklt, v, hv, hvid⟩ := idxOfId_some_get st2.curId st2.tasks k hidx
        have hmapk : (st2.tasks.map Task.id).get? k = some st.curId := by
          rw [List.get?_map, hv]
          simp [hvid, hcur2]
        have hmapj : (st2.tasks.map Task.id).get? j = some st.curId := by
          rw [List.get?_map, hsel2]
          simp [htid]
        have hnd2 : (st2.tasks.map Task.id).Nodup := by
          rw [hst2, tick_advance_ids]
          exact hnd1
        have hkj : k = j :=
          List.get?_inj (by simpa using hklt) hnd2 (hmapk.trans hmapj.symm)
        rw [hkj] at hidx
        exact hjne hidx
  · intro i hi
    exact hfreed i hi

/-- A state exercising the interesting C1 case: the current task (id 1)
is a zombie that was blocked on a timer when killed (its `saved_fn` is
still set), so the tick advance inside this very `schedule()` call
resurrects its function pointer; a second runnable task (id 2) exists. -/
def c1St : SchedState :=
  { tasks :=
      [ { id := 1, fn := Option.none, saved_fn := some 7, wake_tick := 5,
          block_type := BlockReason.timer, zombie := true, parent_id := 0 },
        { id := 2, fn := some 9, saved_fn := Option.none, wake_tick := 0,
          block_type := BlockReason.none, zombie := false, parent_id := 0 } ]
    curId := 1
    tick := 0
    waitList := [] }

/-- Witness for C1: at `c1St` with a 10 ms tick delta the resurrected
zombie is current and is not selected — the other task is — and nothing
is freed while current. -/
theorem schedule_never_selects_zombie_witness :
    (c1St.tasks.map Task.id).Nodup ∧
      ((∀ t, (schedule_step 10 c1St).1 = some t → t.zombie = false) ∧
        (∀ i ∈ (schedule_step 10 c1St).2.2, i ≠ c1St.curId)) ∧
      (schedule_step 10 c1St).1 = some
        { id := 2, fn := some 9, saved_fn := Option.none, wake_tick := 0,
          block_type := BlockReason.none, zombie := false, parent_id := 0 } ∧
      (schedule_step 10 c1St).2.2 = [] :=
  ⟨by decide, schedule_never_selects_zombie c1St 10 (by decide), by decide, by decide⟩

/-- C8: on each call, the selection of `schedule()` with zero runnable
tasks in the ring returns without a context switch, and with exactly
one runnable task switches to it if and only if it is not the current
task — a single runnable task that is already current never incurs a
context switch. -/
theorem schedule_single_runnable (st : SchedState) :
    (schedRunnables st = [] → scheduleSelect st = Option.none) ∧
    (∀ ui, schedRunnables st = [ui] →
      scheduleSelect st = if curIdx st = some ui then Option.none else some ui) := by
  constructor
  · intro hr
    unfold scheduleSelect
    by_cases hemp : st.tasks.isEmpty
    · rw [if_pos hemp]
    · rw [if_neg hemp, hr]
  · intro ui hr
    unfold scheduleSelect
    by_cases hemp : st.tasks.isEmpty
    · exfalso
      have hnil : st.tasks = [] := List.isEmpty_iff.mp hemp
      rw [schedRunnables, hnil] at hr
      simp at hr
    · rw [if_neg hemp, hr]

/-- A ring with a single runnable task that is the current task. -/
def c8St : SchedState :=
  { tasks :=
      [ { id := 1, fn := some 5, saved_fn := Option.none, wake_tick := 0,
          block_type := BlockReason.none, zombie := false, parent_id := 0 } ]
    curId := 1
    tick := 0
    waitList := [] }

/-- The same ring seen from the boot context (`task_cur` not on the
ring): the single runnable task must be switched into. -/
def c8StB : SchedState :=
  { c8St with curId := 0 }

/-- Witness for C8: with one runnable task, no switch happens when it
is current, and a switch to it happens when the boot context is
current. -/
theorem schedule_single_runnable_witness :
    (schedRunnables c8St = [0] ∧ curIdx c8St = some 0 ∧
      scheduleSelect c8St = Option.none) ∧
    (schedRunnables c8StB = [0] ∧ curIdx c8StB = Option.none ∧
      scheduleSelect c8StB = some 0) := by
  constructor
  · refine ⟨by decide, by decide, ?_⟩
    have h := (schedule_single_runnable c8St).2 0 (by decide)
    rw [h]
    decide
  · refine ⟨by decide, by decide, ?_⟩
    have h := (schedule_single_runnable c8StB).2 0 (by decide)
    rw [h]
    decide

/-- C5: `scheduler_tick_advance` restores the function pointer of a
TIMER-blocked task (as set up by `task_block_current_until`) exactly
when the wrap-unsafe comparison `(int)wake_tick <= scheduler_tick`
holds at the advanced tick; otherwise the task is left unchanged.  (A
zero delta returns early, so the theorem takes `delta ≠ 0`.) -/
theorem tick_advance_wake_condition (st : SchedState) (delta : Nat) (i : Nat) (f : Nat)
    (hd : delta ≠ 0) (hi : i < st.tasks.length)
    (hfn : (st.tasks.get ⟨i, hi⟩).fn = Option.none)
    (hsv : (st.tasks.get ⟨i, hi⟩).saved_fn = some f)
    (hbt : (st.tasks.get ⟨i, hi⟩).block_type = BlockReason.timer) :
    ∃ hi' : i < (scheduler_tick_advance delta st).tasks.length,
      (scheduler_tick_advance delta st).tick = st.tick + toInt32 delta ∧
      (toInt32 (st.tasks.get ⟨i, hi⟩).wake_tick ≤ st.tick + toInt32 delta →
        (scheduler_tick_advance delta st).tasks.get ⟨i, hi'⟩ =
          { st.tasks.get ⟨i, hi⟩ with fn := some f, saved_fn := Option.none, block_type := BlockReason.none }) ∧
      (¬ toInt32 (st.tasks.get ⟨i, hi⟩).wake_tick ≤ st.tick + toInt32 delta →
        (scheduler_tick_advance delta st).tasks.get ⟨i, hi'⟩ = st.tasks.get ⟨i, hi⟩) := by
  have hstep : scheduler_tick_advance delta st =
      { st with tick := st.tick + toInt32 delta,
                tasks := st.tasks.map (wakeStep (st.tick + toInt32 delta)) } := by
    unfold scheduler_tick_advance
    rw [if_neg hd]
  rw [hstep]
  have hi' : i < (st.tasks.map (wakeStep (st.tick + toInt32 delta))).length := by
    simpa using hi
  have hget : (st.tasks.map (wakeStep (st.tick + toInt32 delta))).get ⟨i, hi'⟩ =
      wakeStep (st.tick + toInt32 delta) (st.tasks.get ⟨i, hi⟩) :=
    List.get_map _
  refine ⟨hi', rfl, ?_, ?_⟩
  · intro hcond
    rw [hget]
    unfold wakeStep
    rw [if_pos ⟨hfn, by rw [hsv]; simp, hbt, hcond⟩, hsv]
  · intro hcond
    rw [hget]
    unfold wakeStep
    rw [if_neg (by intro hcon; exact hcond hcon.2.2.2)]

/-- A ring holding one task blocked by `task_block_current_until` with
`wake_tick = 5`, at tick 0. -/
def c5St : SchedState :=
  { tasks :=
      [ { id := 1, fn := Option.none, saved_fn := some 7, wake_tick := 5,
          block_type := BlockReason.timer, zombie := false, parent_id := 0 } ]
    curId := 0
    tick := 0
    waitList := [] }

theorem c5_hi : (0 : Nat) < c5St.tasks.length := by decide

/-- Witness for C5: advancing the tick by 10 ms wakes the task blocked
until tick 5. -/
theorem tick_advance_wake_condition_witness :
    (10 : Nat) ≠ 0 ∧ (0 : Nat) < c5St.tasks.length ∧
      (c5St.tasks.get ⟨0, c5_hi⟩).fn = Option.none ∧
      (c5St.tasks.get ⟨0, c5_hi⟩).saved_fn = some 7 ∧
      (c5St.tasks.get ⟨0, c5_hi⟩).block_type = BlockReason.timer ∧
      ∃ hi' : (0 : Nat) < (scheduler_tick_advance 10 c5St).tasks.length,
        (scheduler_tick_advance 10 c5St).tick = c5St.tick + toInt32 10 ∧
        (toInt32 (c5St.tasks.get ⟨0, c5_hi⟩).wake_tick ≤ c5St.tick + toInt32 10 →
          (scheduler_tick_advance 10 c5St).tasks.get ⟨0, hi'⟩ =
            { c5St.tasks.get ⟨0, c5_hi⟩ with fn := some 7, saved_fn := Option.none, block_type := BlockReason.none }) ∧
        (¬ toInt32 (c5St.tasks.get ⟨0, c5_hi⟩).wake_tick ≤ c5St.tick + toInt32 10 →
          (scheduler_tick_advance 10 c5St).tasks.get ⟨0, hi'⟩ = c5St.tasks.get ⟨0, c5_hi⟩) :=
  ⟨by decide, c5_hi, rfl, rfl, rfl,
    tick_advance_wake_condition c5St 10 0 7 (by decide) c5_hi rfl rfl rfl⟩

end Sched

/- ======================================================================
   Window manager — src/kernel/wm.h, src/kernel/wm.c

   Only the state machine (`wm_set_state`) and the close protocol
   (`wm_close_window`) are needed by the claims.  The window list is
   top-first (head = topmost); `screen_w`/`screen_h` are the globals
   set by `wm_init`, `taskbar_h` is the constant 32.
   ====================================================================== -/

/-- Model of `wm_state_t` (src/kernel/wm.h lines 9..15). -/
inductive WmState where
  | normal
  | minimized
  | maximized
  | fullscreen
  | maximized_taskbar
deriving Repr, DecidableEq

/-- The fields of `struct window` (src/kernel/wm.h lines 24..43) that
the claims inspect.  `on_close` is the registered on-close callback
pointer (`none` = NULL), `tty` the optional PTY pointer. -/
structure Window where
  id : Int
  x : Int
  y : Int
  w : Int
  h : Int
  saved_x : Int
  saved_y : Int
  saved_w : Int
  saved_h : Int
  state : WmState
  on_close : Option Nat
  tty : Option Nat
deriving Repr, DecidableEq

/-- Model of `wm_set_state` (src/kernel/wm.c lines 320..352): save the geometry
when leaving `NORMAL`, set the new state, then apply the state's
geometry (`taskbar_h = 32`); `NORMAL` restores the saved geometry;
`MINIMIZED` leaves the geometry alone. -/
def wm_set_state (screen_w screen_h : Int) (win : Window) (s : WmState) : Window :=
  let win1 :=
    if win.state = WmState.normal then
      { win with saved_x := win.x, saved_y := win.y, saved_w := win.w, saved_h := win.h }
    else win
  let win2 := { win1 with state := s }
  match s with
  | WmState.maximized => { win2 with x := 0, y := 0, w := screen_w, h := screen_h }
  | WmState.fullscreen => { win2 with x := 0, y := 0, w := screen_w, h := screen_h }
  | WmState.maximized_taskbar =>
    { win2 with x := 0, y := 0, w := screen_w, h := screen_h - 32 }
  | WmState.normal =>
    { win2 with x := win2.saved_x, y := win2.saved_y, w := win2.saved_w, h := win2.saved_h }
  | WmState.minimized => win2

/-- C6: for a window in `NORMAL` state, `wm_set_state(w, S)` followed by
`wm_set_state(w, NORMAL)` restores the geometry `(x, y, w, h)` exactly,
for every `S` in {`MAXIMIZED`, `MAXIMIZED_TASKBAR`, `FULLSCREEN`}: the
first call saves the geometry on leaving `NORMAL` and the second call
restores the saved fields untouched. -/
theorem wm_set_state_roundtrip (sw sh : Int) (win : Window) (s : WmState)
    (hn : win.state = WmState.normal)
    (hs : s = WmState.maximized ∨ s = WmState.maximized_taskbar ∨ s = WmState.fullscreen) :
    (wm_set_state sw sh (wm_set_state sw sh win s) WmState.normal).x = win.x ∧
    (wm_set_state sw sh (wm_set_state sw sh win s) WmState.normal).y = win.y ∧
    (wm_set_state sw sh (wm_set_state sw sh win s) WmState.normal).w = win.w ∧
    (wm_set_state sw sh (wm_set_state sw sh win s) WmState.normal).h = win.h ∧
    (wm_set_state sw sh (wm_set_state sw sh win s) WmState.normal).state = WmState.normal := by
  rcases hs with rfl | rfl | rfl <;> simp [wm_set_state, hn]

/-- A concrete normal-state window for the C6 witness. -/
def c6Win : Window :=
  { id := 3, x := 17, y := 23, w := 300, h := 200, saved_x := 0, saved_y := 0,
    saved_w := 0, saved_h := 0, state := WmState.normal, on_close := Option.none,
    tty := Option.none }

/-- Witness for C6 at a concrete window, screen 800×600 and
`S = MAXIMIZED_TASKBAR`. -/
theorem wm_set_state_roundtrip_witness :
    c6Win.state = WmState.normal ∧
      (WmState.maximized_taskbar = WmState.maximized ∨
        WmState.maximized_taskbar = WmState.maximized_taskbar ∨
        WmState.maximized_taskbar = WmState.fullscreen) ∧
      (wm_set_state 800 600 (wm_set_state 800 600 c6Win WmState.maximized_taskbar)
          WmState.normal).x = c6Win.x ∧
      (wm_set_state 800 600 (wm_set_state 800 600 c6Win WmState.maximized_taskbar)
          WmState.normal).y = c6Win.y ∧
      (wm_set_state 800 600 (wm_set_state 800 600 c6Win WmState.maximized_taskbar)
          WmState.normal).w = c6Win.w ∧
      (wm_set_state 800 600 (wm_set_state 800 600 c6Win WmState.maximized_taskbar)
          WmState.normal).h = c6Win.h ∧
      (wm_set_state 800 600 (wm_set_state 800 600 c6Win WmState.maximized_taskbar)
          WmState.normal).state = WmState.normal :=
  ⟨rfl, Or.inr (Or.inl rfl),
    wm_set_state_roundtrip 800 600 c6Win WmState.maximized_taskbar rfl
      (Or.inr (Or.inl rfl))⟩

/-- The observable window-manager state for the close protocol: the
window list (top-first), the focused window (by id, `none` = NULL), and
three observation traces — the window ids passed to `kfree`, the
on-close callbacks invoked, and the event ids signalled via
`task_wake_event`.  The translated `wm_close_window` appends to `freed`
but never to `closed_calls` or `signalled`, because the source neither
calls `win->on_close` nor wakes any event. -/
structure WmSt where
  windows : List Window
  focused : Option Int
  freed : List Int
  closed_calls : List Int
  signalled : List Nat
deriving Repr, DecidableEq

def removeFirstWinById (i : Int) : List Window → List Window
  | [] => []
  | w :: ws => if w.id == i then ws else w :: removeFirstWinById i ws

/-- Model of `wm_close_window` (src/kernel/wm.c lines 125..143): walk the list
for the window, unlink it, move focus to the (new) list head if the
closed window was focused, and `kfree` the struct.  The loop body
contains no call to `win->on_close` and the function performs no
`task_wake_event`: the registered callback is dropped and no redraw is
triggered. -/
def wm_close_window (st : WmSt) (wid : Int) : WmSt :=
  match st.windows.find? (fun w => w.id == wid) with
  | Option.none => st
  | some _ =>
    let ws := removeFirstWinById wid st.windows
    let focused' := if st.focused = some wid then ws.head?.map Window.id else st.focused
    { st with windows := ws, focused := focused', freed := wid :: st.freed }

/-- A window with a registered on-close callback, alone on the list and
focused — e.g. the terminal window, whose callback kills the shell
task. -/
def c2Win : Window :=
  { id := 1, x := 10, y := 10, w := 100, h := 80, saved_x := 10, saved_y := 10,
    saved_w := 100, saved_h := 80, state := WmState.normal, on_close := some 7,
    tty := Option.none }

def c2St : WmSt :=
  { windows := [c2Win], focused := some 1, freed := [], closed_calls := [], signalled := [] }

/-- C2 (code evaluated at the failing input): closing a window that has
a user-supplied on-close callback unlinks and frees it, but never
invokes the callback and never signals the WM event — the source's
`wm_close_window` has no `on_close` call and no `task_wake_event`
call, although every GUI application registers such a callback to free
its private state. -/
theorem wm_close_window_drops_callback :
    c2Win.on_close = some 7 ∧
    (wm_close_window c2St 1).windows = [] ∧
    (wm_close_window c2St 1).freed = [1] ∧
    (wm_close_window c2St 1).focused = Option.none ∧
    (wm_close_window c2St 1).closed_calls = [] ∧
    (wm_close_window c2St 1).signalled = [] := by
  decide

/- ======================================================================
   Input aggregator — src/kernel/input.c

   Two 256-slot ring queues (`key_queue`, `mouse_queue`) plus the
   normalized mouse state.  `input_push_event` updates the mouse state,
   clamps the coordinates, routes the event (KEY codes ≥ 0x100 = 256
   are remapped to `INPUT_TYPE_MOUSE_BTN` = 10 and go to the mouse
   queue; every other KEY stays in the key queue; non-KEY types go to
   the mouse queue), pushes unless the destination ring is full, and on
   a successful push signals the WM event — plus the MOUSE event when
   the remapped type is not KEY.  The type codes are those of
   src/kernel/input.h: SYN 0, KEY 1, REL 2, ABS 3, MOUSE_BTN 10.
   ====================================================================== -/

/-- Model of `struct input_event` (src/kernel/input.h lines 16..20). -/
structure InputEvent where
  type : Nat
  code : Nat
  value : Int
deriving Repr, DecidableEq

/-- The events signalled via `task_wake_event` (`WM_EVENT_ID`,
`MOUSE_EVENT_ID` are opaque addresses; only their identity matters). -/
inductive EventTag where
  | wm
  | mouse
deriving Repr, DecidableEq

/-- The aggregator globals of src/kernel/input.c: both rings with their
head/tail indices, the normalized mouse state and the screen size. -/
structure InputSt where
  key_queue : List InputEvent
  key_head : Nat
  key_tail : Nat
  mouse_queue : List InputEvent
  mouse_head : Nat
  mouse_tail : Nat
  mouse_x : Int
  mouse_y : Int
  mouse_btn : Int
  screen_w : Int
  screen_h : Int
deriving Repr, DecidableEq

/-- Model of `scale_mouse` (src/kernel/input.c lines 59..62): C `int` division
truncates toward zero. -/
def scale_mouse (val max_res : Int) : Int :=
  Int.tdiv (val * max_res) 32768

/-- The mouse-state update at the top of `input_push_event`
(src/kernel/input.c lines 66..75). -/
def input_update_mouse (st : InputSt) (type0 code : Nat) (value : Int) : InputSt :=
  if type0 = 3 then
    if code = 0 then { st with mouse_x := scale_mouse value st.screen_w }
    else if code = 1 then { st with mouse_y := scale_mouse value st.screen_h }
    else st
  else if type0 = 2 then
    if code = 0 then { st with mouse_x := st.mouse_x + value }
    else if code = 1 then { st with mouse_y := st.mouse_y + value }
    else st
  else if type0 = 1 ∧ 272 ≤ code then
    if code = 272 then { st with mouse_btn := value } else st
  else st

/-- The coordinate clamping of `input_push_event` (src/kernel/input.c
lines 78..81). -/
def input_clamp (st : InputSt) : InputSt :=
  let mx := if st.mouse_x < 0 then 0 else st.mouse_x
  let mx2 := if st.screen_w ≤ mx then st.screen_w - 1 else mx
  let my := if st.mouse_y < 0 then 0 else st.mouse_y
  let my2 := if st.screen_h ≤ my then st.screen_h - 1 else my
  { st with mouse_x := mx2, mouse_y := my2 }

/-- Model of `input_push_event` (src/kernel/input.c lines 64..117): returns the
new state, the list of events signalled via `task_wake_event` (in call
order) and whether the event was pushed.  A full destination ring drops
the event silently and signals nothing. -/
def input_push_event (st0 : InputSt) (type0 code : Nat) (value : Int) :
    InputSt × List EventTag × Bool :=
  let st := input_clamp (input_update_mouse st0 type0 code value)
  let type1 := if type0 = 1 ∧ 256 ≤ code then 10 else type0
  let route_mouse := if type0 = 1 then 256 ≤ code else True
  if route_mouse then
    let next := (st.mouse_head + 1) % 256
    if next ≠ st.mouse_tail then
      let st' := { st with
        mouse_queue := st.mouse_queue.set st.mouse_head ⟨type1, code, value⟩
        mouse_head := next }
      (st', if type1 = 1 then [EventTag.wm] else [EventTag.mouse, EventTag.wm], true)
    else (st, [], false)
  else
    let next := (st.key_head + 1) % 256
    if next ≠ st.key_tail then
      let st' := { st with
        key_queue := st.key_queue.set st.key_head ⟨type1, code, value⟩
        key_head := next }
      (st', if type1 = 1 then [EventTag.wm] else [EventTag.mouse, EventTag.wm], true)
    else (st, [], false)

theorem input_update_mouse_frame (st : InputSt) (type0 code : Nat) (value : Int) :
    (input_update_mouse st type0 code value).key_queue = st.key_queue ∧
    (input_update_mouse st type0 code value).key_head = st.key_head ∧
    (input_update_mouse st type0 code value).key_tail = st.key_tail ∧
    (input_update_mouse st type0 code value).mouse_queue = st.mouse_queue ∧
    (input_update_mouse st type0 code value).mouse_head = st.mouse_head ∧
    (input_update_mouse st type0 code value).mouse_tail = st.mouse_tail := by
  unfold input_update_mouse
  split_ifs <;> exact ⟨rfl, rfl, rfl, rfl, rfl, rfl⟩

theorem input_clamp_frame (st : InputSt) :
    (input_clamp st).key_queue = st.key_queue ∧
    (input_clamp st).key_head = st.key_head ∧
    (input_clamp st).key_tail = st.key_tail ∧
    (input_clamp st).mouse_queue = st.mouse_queue ∧
    (input_clamp st).mouse_head = st.mouse_head ∧
    (input_clamp st).mouse_tail = st.mouse_tail := by
  unfold input_clamp
  exact ⟨rfl, rfl, rfl, rfl, rfl, rfl⟩

/-- C9: `input_push_event` routes every KEY event (type 1) with code
≥ 0x100 into the mouse queue remapped to type `MOUSE_BTN` (10), and
every other KEY event into the key queue; on every successful push it
signals the WM event via `task_wake_event`, and for events pushed to
the mouse queue it additionally signals the MOUSE event (a full ring
drops the event and signals nothing). -/
theorem input_push_event_routing (st : InputSt) (type0 code : Nat) (value : Int) :
    ((input_push_event st type0 code value).2.2 = true →
      EventTag.wm ∈ (input_push_event st type0 code value).2.1) ∧
    ((input_push_event st type0 code value).2.2 = false →
      (input_push_event st type0 code value).2.1 = []) ∧
    (type0 = 1 → 256 ≤ code →
      ((st.mouse_head + 1) % 256 ≠ st.mouse_tail →
        (input_push_event st type0 code value).1.mouse_queue =
          st.mouse_queue.set st.mouse_head ⟨10, code, value⟩ ∧
        (input_push_event st type0 code value).1.mouse_head = (st.mouse_head + 1) % 256 ∧
        (input_push_event st type0 code value).1.key_queue = st.key_queue ∧
        (input_push_event st type0 code value).1.key_head = st.key_head ∧
        (input_push_event st type0 code value).2.1 = [EventTag.mouse, EventTag.wm] ∧
        (input_push_event st type0 code value).2.2 = true) ∧
      ((st.mouse_head + 1) % 256 = st.mouse_tail →
        (input_push_event st type0 code value).2.2 = false)) ∧
    (type0 = 1 → code < 256 →
      ((st.key_head + 1) % 256 ≠ st.key_tail →
        (input_push_event st type0 code value).1.key_queue =
          st.key_queue.set st.key_head ⟨1, code, value⟩ ∧
        (input_push_event st type0 code value).1.key_head = (st.key_head + 1) % 256 ∧
        (input_push_event st type0 code value).1.mouse_queue = st.mouse_queue ∧
        (input_push_event st type0 code value).1.mouse_head = st.mouse_head ∧
        (input_push_event st type0 code value).2.1 = [EventTag.wm] ∧
        (input_push_event st type0 code value).2.2 = true) ∧
      ((st.key_head + 1) % 256 = st.key_tail →
        (input_push_event st type0 code value).2.2 = false)) ∧
    (type0 ≠ 1 → (input_push_event st type0 code value).2.2 = true →
      (input_push_event st type0 code value).2.1 = [EventTag.mouse, EventTag.wm]) := by
  obtain ⟨u1, u2, u3, u4, u5, u6⟩ := input_update_mouse_frame st type0 code value
  obtain ⟨c1, c2, c3, c4, c5, c6⟩ := input_clamp_frame (input_update_mouse st type0 code value)
  refine ⟨?_, ?_, ?_, ?_, ?_⟩
  · -- every successful push signals WM
    intro hpush
    unfold input_push_event at hpush ⊢
    simp only [c1, c2, c3, c4, c5, c6, u1, u2, u3, u4, u5, u6] at hpush ⊢
    split_ifs at hpush ⊢ <;> simp_all
  · -- a dropped event signals nothing
    intro hpush
    unfold input_push_event at hpush ⊢
    simp only [c1, c2, c3, c4, c5, c6, u1, u2, u3, u4, u5, u6] at hpush ⊢
    split_ifs at hpush ⊢ <;> simp_all
  · -- KEY with code ≥ 0x100: remapped into the mouse queue
    intro ht hcode
    subst ht
    constructor
    · intro hne
      simp only [input_push_event]
      simp [c1, c2, c3, c4, c5, c6, u1, u2, u3, u4, u5, u6, hcode, hne]
    · intro hfull
      simp only [input_push_event]
      simp [c4, c5, c6, u4, u5, u6, hcode, hfull]
  · -- KEY with code < 0x100: stays in the key queue
    intro ht hcode
    subst ht
    have hcode' : ¬ 256 ≤ code := by omega
    constructor
    · intro hne
      simp only [input_push_event]
      simp [c1, c2, c3, c4, c5, c6, u1, u2, u3, u4, u5, u6, hcode', hne]
    · intro hfull
      simp only [input_push_event]
      simp [c1, c2, c3, u1, u2, u3, hcode', hfull]
  · -- non-KEY events go to the mouse queue and signal MOUSE and WM
    intro ht hpush
    unfold input_push_event at hpush ⊢
    simp only [c1, c2, c3, c4, c5, c6, u1, u2, u3, u4, u5, u6] at hpush ⊢
    split_ifs at hpush ⊢ <;> simp_all

/-- A fresh aggregator state: empty rings, 800×600 screen. -/
def c9St : InputSt :=
  { key_queue := List.replicate 256 ⟨0, 0, 0⟩
    key_head := 0
    key_tail := 0
    mouse_queue := List.replicate 256 ⟨0, 0, 0⟩
    mouse_head := 0
    mouse_tail := 0
    mouse_x := 0
    mouse_y := 0
    mouse_btn := 0
    screen_w := 800
    screen_h := 600 }

/-- Witness for C9: pushing KEY code 0x110 (a mouse button) lands in
the mouse queue as `MOUSE_BTN` and signals MOUSE then WM; pushing KEY
code 30 lands in the key queue and signals only WM. -/
theorem input_push_event_routing_witness :
    (input_push_event c9St 1 272 1).2.1 = [EventTag.mouse, EventTag.wm] ∧
    (input_push_event c9St 1 272 1).1.mouse_queue =
      c9St.mouse_queue.set 0 ⟨10, 272, 1⟩ ∧
    (input_push_event c9St 1 30 2).2.1 = [EventTag.wm] ∧
    (input_push_event c9St 1 30 2).1.key_queue =
      c9St.key_queue.set 0 ⟨1, 30, 2⟩ := by
  have hA := ((input_push_event_routing c9St 1 272 1).2.2.1 rfl (by omega)).1 (by decide)
  have hB := ((input_push_event_routing c9St 1 30 2).2.2.2.1 rfl (by omega)).1 (by decide)
  exact ⟨hA.2.2.2.2.1, hA.1, hB.2.2.2.2.1, hB.1⟩
